import Mathlib

/-!
A shallow embedding of the CVFS in-memory virtual filesystem (src/VFS.hpp)
and a verification of the specified properties against it.

Modelling conventions:
- `std::string` values (names, paths, file bytes) are modelled as `List Char`
  respectively `List Nat`; the `<` comparison on `List Char` is lexicographic,
  matching byte-wise `std::string` comparison on ASCII data.
- `size_t` is modelled as `Nat` with explicit wrap-around (`% 2 ^ 64`) at the
  operations where the source relies on unsigned arithmetic; `int` values that
  can leave the nonnegative range are modelled as `Int` with an explicit
  two-complement conversion where the source converts `size_t` to `int`.
- Machine memory whose content is indeterminate (uninitialized chunk bytes,
  out-of-bounds reads) is modelled by `Option Nat`: `none` is an indeterminate
  byte.  Executions that are undefined behavior in C++ (out-of-bounds vector
  indexing, null dereference, a bad cast followed by use) are modelled by an
  explicit failure value (`Option.none` result or `FacadeResult.invalid`).
- Timestamps (`m_Created`, `m_Accessed`, `m_Modified`) and the per-node mutex
  are not modelled: no claim refers to them, and all operations are modelled
  as sequential.
- The C++ tree mutates nodes through shared pointers.  The functional model
  rebuilds the tree along the mutated path.  For `Move` this coincides with
  the heap semantics whenever the destination directory is not inside the
  moved subtree, which holds for every input the theorems below use.
-/

namespace CVFS

/-! ### Machine-arithmetic helpers -/

/-- Cardinality of `size_t` (64-bit). -/
def UCARD : Nat := 2 ^ 64

/-- `std::string::npos`, i.e. `(size_t)-1`. -/
def NPOS : Nat := UCARD - 1

/-- Addition of `size_t` values (wraps modulo `2 ^ 64`). -/
def addU64 (a b : Nat) : Nat := (a + b) % UCARD

/-- Subtraction of `size_t` values (wraps modulo `2 ^ 64`). -/
def subU64 (a b : Nat) : Nat := (a + (UCARD - b % UCARD)) % UCARD

/-- Conversion of a signed 64-bit value (`int64_t`, here any `Int`) to
`size_t`: two-complement reduction modulo `2 ^ 64`. -/
def intToU64 (i : Int) : Nat := (i % (UCARD : Int)).toNat

/-- Conversion of a `size_t` value to a 32-bit `int`, as gcc and clang
implement it: reduction modulo `2 ^ 32` read as two-complement. -/
def u64ToInt32 (v : Nat) : Int :=
  if v % 2 ^ 32 < 2 ^ 31 then ((v % 2 ^ 32 : Nat) : Int)
  else ((v % 2 ^ 32 : Nat) : Int) - 2 ^ 32

/-! ### Bytes, chunks and files -/

/-- A byte held in machine memory; `none` is an indeterminate byte
(uninitialized storage, or the result of an out-of-bounds read). -/
abbrev Byte := Option Nat

/-- Names and paths are byte strings. -/
abbrev Name := List Char

/-- `#define CHUNK_SIZE 4096`. -/
def CHUNK_SIZE : Nat := 4096

/-- `SChunk`: a fixed-capacity data chunk.  `bytes` holds the `filled`
initialized bytes (the remaining storage up to the 4096-byte capacity is
uninitialized, hence not represented; reading it yields `none`). -/
structure SChunk where
  filled : Nat
  bytes : List Byte
deriving DecidableEq, Repr

/-- `new SChunk()`: `Filled = 0`, buffer uninitialized. -/
def SChunk.fresh : SChunk := ⟨0, []⟩

/-- `CVFS::CVFSFile`: name, total size and chunk sequence. -/
structure CVFSFile where
  name : Name
  mSize : Nat
  mData : List SChunk
deriving DecidableEq, Repr

/-- `CVFSFile::ReserveChunks(Count)`: appends `count` fresh chunks. -/
def reserveChunks (d : List SChunk) (count : Nat) : List SChunk :=
  d ++ List.replicate count SChunk.fresh

/-- `CVFSFile::Clear()`: `m_Data.clear(); ReserveChunks(4);`.  Note that the
source does NOT reset `m_Size`; the model reproduces this faithfully. -/
def CVFSFile.Clear (f : CVFSFile) : CVFSFile :=
  { f with mData := reserveChunks [] 4 }

/-- The `while (Written < Size)` loop of `CVFSFile::Write`.  Arguments after
`size`: remaining fuel, the chunk vector, `Written`, `m_Size`, `ChunkPos`.
Returns the new chunk vector, the new `m_Size` and `Written`, or `none` when
the source indexes `m_Data` out of bounds (undefined behavior).  `ChunkPos`
increases by one in every iteration and the source breaks out (here: fails)
as soon as it reaches `m_Data.size()`, so the loop performs at most
`m_Data.size() + 1` iterations; the callers pass that as fuel, hence the
fuel-exhausted case is unreachable.  `CopyCount` is
`(Size >= Free) ? Free : Size` exactly as in the source: the total requested
size, not the remaining size, which lets a chunk-spanning write copy past the
end of the input buffer (those bytes are indeterminate, `none`). -/
def writeLoop (data : List Nat) (size : Nat) :
    Nat → List SChunk → Nat → Nat → Nat → Option (List SChunk × Nat × Nat)
  | 0, _, _, _, _ => none
  | fuel + 1, chunks, written, msize, chunkPos =>
    if written < size then
      if h : chunkPos < chunks.length then
        let c := chunks[chunkPos]
        let free := CHUNK_SIZE - c.filled
        let copyCount := if size ≥ free then free else size
        let piece := (List.range copyCount).map fun i => data[written + i]?
        writeLoop data size fuel
          (chunks.set chunkPos ⟨c.filled + copyCount, c.bytes ++ piece⟩)
          (written + copyCount) (msize + copyCount) (chunkPos + 1)
      else none
    else some (chunks, msize, written)

/-- `CVFSFile::Write(Data, Size)`.  Computes the chunk count needed, reserves
new chunks only when `m_Size` sits exactly at the total chunk capacity, and
runs the write loop starting at chunk `m_Size / CHUNK_SIZE`. -/
def CVFSFile.Write (f : CVFSFile) (data : List Nat) (size : Nat) :
    Option (CVFSFile × Nat) :=
  let chunkCount := size / CHUNK_SIZE + (if size % CHUNK_SIZE > 0 then 1 else 0)
  let d := if f.mSize = f.mData.length * CHUNK_SIZE
           then reserveChunks f.mData chunkCount else f.mData
  match writeLoop data size (d.length + 1) d 0 f.mSize (f.mSize / CHUNK_SIZE) with
  | some (d2, msize2, written) => some ({ f with mData := d2, mSize := msize2 }, written)
  | none => none

/-- The `while (Readed < Size)` loop of `CVFSFile::Read`.  Arguments after
`curPos`: remaining fuel, `Readed`, `ChunkPos`.  Returns the final `Readed`
and the bytes the loop copies into the output buffer, in order.  The source
recomputes `Pos = CurPos - ChunkPos * CHUNK_SIZE` from the unchanged `CurPos`
in every iteration (`size_t` arithmetic, wrapping), converts
`c->Filled - Pos` to `int`, and compares that `int` against the `size_t`
argument `Size` (converting the `int` to `size_t`, so a negative count
becomes huge); the model reproduces each conversion.  `ChunkPos` increases
every iteration and the loop breaks at `m_Data.size()`, so fuel
`m_Data.size() + 1` (what the caller passes) is never exhausted. -/
def readLoop (chunks : List SChunk) (size curPos : Nat) :
    Nat → Nat → Nat → Nat × List Byte
  | 0, readed, _ => (readed, [])
  | fuel + 1, readed, chunkPos =>
    if readed < size then
      if h : chunkPos < chunks.length then
        let c := chunks[chunkPos]
        let pos := subU64 curPos (chunkPos * CHUNK_SIZE)
        let cc0 : Int := u64ToInt32 (subU64 c.filled pos)
        let cc1 : Int := if intToU64 cc0 > size then u64ToInt32 size else cc0
        if cc1 ≤ 0 then (readed, [])
        else
          let piece := (List.range cc1.toNat).map fun i => (c.bytes[pos + i]?).join
          let rest := readLoop chunks size curPos fuel (readed + cc1.toNat) (chunkPos + 1)
          (rest.1, piece ++ rest.2)
      else (readed, [])
    else (readed, [])

/-- `CVFSFile::Read(Buf, Size, CurPos)`: starts at chunk
`CurPos / CHUNK_SIZE` and runs the read loop. -/
def CVFSFile.Read (f : CVFSFile) (size curPos : Nat) : Nat × List Byte :=
  readLoop f.mData size curPos (f.mData.length + 1) 0 (curPos / CHUNK_SIZE)

/-- `CVFSFile::Size()`. -/
def CVFSFile.Size (f : CVFSFile) : Nat := f.mSize

/-! ### File modes and streams -/

/-- `FileMode::READ`. -/
def READ : Nat := 1

/-- `FileMode::WRITE`. -/
def WRITE : Nat := 2

/-- `FileMode::RW = READ | WRITE`. -/
def RW : Nat := 3

/-- `FileMode::APPEND`. -/
def APPEND : Nat := 4

/-- `(mode & flag) == flag`. -/
def hasMode (mode flag : Nat) : Bool := Nat.land mode flag == flag

/-- `enum class Cursor`. -/
inductive Cursor where
  | BEG
  | CUR
  | END
deriving DecidableEq, Repr

/-- `CVFSFileStream`: the bound file, the access mode and the cursor.  The
stream aliases the file held in the tree through a shared pointer; the model
carries the file state inside the stream (see the header comment). -/
structure CVFSFileStream where
  mFile : CVFSFile
  mMode : Nat
  mCurPos : Nat
deriving DecidableEq, Repr

/-- The `CVFSFileStream` constructor: clears the bound file unless the mode
contains `APPEND`. -/
def mkStream (file : CVFSFile) (mode : Nat) : CVFSFileStream :=
  if hasMode mode APPEND then ⟨file, mode, 0⟩ else ⟨file.Clear, mode, 0⟩

/-- `CVFSFileStream::Size()`: the bound file size. -/
def CVFSFileStream.Size (s : CVFSFileStream) : Nat := s.mFile.Size

/-- `CVFSFileStream::Tell()`. -/
def CVFSFileStream.Tell (s : CVFSFileStream) : Nat := s.mCurPos

/-- `CVFSFileStream::IsEOF()`. -/
def CVFSFileStream.IsEOF (s : CVFSFileStream) : Bool := s.mCurPos ≥ s.Size

/-- `CVFSFileStream::Read(Buf, Size)`: gated on `READ` and a non-zero size;
reads at the cursor and advances it by the returned count.  Returns the new
stream, the count and the bytes placed into the buffer. -/
def CVFSFileStream.Read (s : CVFSFileStream) (size : Nat) :
    CVFSFileStream × Nat × List Byte :=
  if hasMode s.mMode READ ∧ s.Size ≠ 0 then
    let r := s.mFile.Read size s.mCurPos
    ({ s with mCurPos := s.mCurPos + r.1 }, r.1, r.2)
  else (s, 0, [])

/-- The no-argument `CVFSFileStream::Read()`: resizes a string to `Size()`
(value-initialized to zero bytes) and calls the cursor-based `Read` on it.
The visible result is the buffer: the copied bytes, truncated to the buffer
length (copying further is an out-of-bounds write, undefined behavior not
otherwise modelled), padded with the untouched zero bytes. -/
def CVFSFileStream.ReadAll (s : CVFSFileStream) : CVFSFileStream × List Byte :=
  let n := s.Size
  let r := s.Read n
  (r.1, r.2.2.take n ++ List.replicate (n - r.2.2.length) (some 0))

/-- `CVFSFileStream::Write(Data, Size)`: gated on `WRITE`; delegates to the
file-level append.  `none` models the undefined behavior inherited from
`CVFSFile::Write`. -/
def CVFSFileStream.Write (s : CVFSFileStream) (data : List Nat) (size : Nat) :
    Option (CVFSFileStream × Nat) :=
  if hasMode s.mMode WRITE then
    match s.mFile.Write data size with
    | some (f2, written) => some ({ s with mFile := f2 }, written)
    | none => none
  else some (s, 0)

/-- `CVFSFileStream::Seek(cur, Bytes)`: no-op when the size is zero;
otherwise computes the new position in `size_t` arithmetic (the `int64_t`
offset converted to `size_t`) and caps it at `Size()`. -/
def CVFSFileStream.Seek (s : CVFSFileStream) (cur : Cursor) (bytes : Int) :
    CVFSFileStream :=
  if s.Size = 0 then s
  else
    match cur with
    | .BEG =>
      let b := intToU64 bytes
      { s with mCurPos := if b > s.Size then s.Size else b }
    | .CUR =>
      let np := addU64 s.mCurPos (intToU64 bytes)
      { s with mCurPos := if np > s.Size then s.Size else np }
    | .END =>
      let np := addU64 s.Size (intToU64 bytes)
      { s with mCurPos := if np > s.Size then s.Size else np }

/-- The seek target in unsigned arithmetic, before capping: absolute for
`BEG`, relative to the cursor for `CUR`, relative to the size for `END`.
This is the spec-side notion used by the amended claim C2. -/
def seekTarget (s : CVFSFileStream) (cur : Cursor) (bytes : Int) : Nat :=
  match cur with
  | .BEG => intToU64 bytes
  | .CUR => addU64 s.mCurPos (intToU64 bytes)
  | .END => addU64 s.Size (intToU64 bytes)

/-! ### Errors and nodes -/

/-- `enum class VFSError`. -/
inductive VFSError where
  | CANT_CREATE_DIR
  | CANT_CREATE_FILE
  | CANT_OPEN_FILE
  | OUT_OF_MEM
  | NODE_IS_FILE
  | NODE_IS_DIR
  | NODE_ALREADY_EXISTS
  | NODE_DOESNT_EXISTS
deriving DecidableEq, Repr

/-- A tree node: either a `CVFSFile` or a `CVFSDir` (name plus the ordered
child sequence `m_Childs`). -/
inductive Node where
  | file (f : CVFSFile)
  | dir (name : Name) (childs : List Node)

/-- `CVFSNode::Name()`. -/
def Node.name : Node → Name
  | .file f => f.name
  | .dir nm _ => nm

/-- `CVFSNode::IsDir()`. -/
def Node.isDir : Node → Bool
  | .file _ => false
  | .dir _ _ => true

/-- The child list of a directory node (`CVFSDir::GetChilds`); empty for a
file. -/
def Node.childs : Node → List Node
  | .file _ => []
  | .dir _ cs => cs

/-! ### Path utilities -/

/-- The splitting loop of `CVFS::SplitPath`: cuts the path at every slash
and drops empty pieces.  The accumulator holds the segment being built. -/
def splitPathGo : List Char → List Char → List Name
  | [], cur => if cur.isEmpty then [] else [cur]
  | ch :: rest, cur =>
    if ch = '/' then
      if cur.isEmpty then splitPathGo rest [] else cur :: splitPathGo rest []
    else splitPathGo rest (cur ++ [ch])

/-- `CVFS::SplitPath(Path)`. -/
def SplitPath (p : List Char) : List Name := splitPathGo p []

/-- The scan behind `std::string::find_last_of("/", bound)`: the largest
index `i ≤ bound` holding a slash, or `NPOS` when there is none.  The bound
is a `size_t`, so passing a wrapped `Pos - 1` (that is, `NPOS`) searches the
whole string, as in C++. -/
def findLastSlashGo : List Char → Nat → Nat → Nat → Nat
  | [], _, _, best => best
  | ch :: rest, i, bound, best =>
    findLastSlashGo rest (i + 1) bound (if ch = '/' ∧ i ≤ bound then i else best)

/-- `Path.find_last_of("/", bound)`. -/
def findLastSlashLe (cs : List Char) (bound : Nat) : Nat :=
  findLastSlashGo cs 0 bound NPOS

/-- `CVFS::ExtractPath(Path)`: everything before the last slash (skipping a
trailing slash); the whole string when there is no slash (`substr(0, npos)`).
All index arithmetic wraps as `size_t`, exactly as in the source. -/
def ExtractPath (p : List Char) : List Char :=
  let pos := findLastSlashLe p NPOS
  let pos2 := if pos = subU64 p.length 1 then findLastSlashLe p (subU64 pos 1) else pos
  p.take pos2

/-- `CVFS::ExtractName(Path)`: the substring `substr(Pos + 1, End - Pos)`
after locating the last slash (skipping a trailing slash).  With no slash at
all, `Pos = npos` makes the start wrap to 0 and the count `End - Pos` equal
0, so the result is empty — the model keeps this quirk. -/
def ExtractName (p : List Char) : Name :=
  let pos := findLastSlashLe p NPOS
  let pr := if pos = subU64 p.length 1
            then (findLastSlashLe p (subU64 pos 1), subU64 pos 1)
            else (pos, NPOS)
  (p.drop (addU64 pr.1 1)).take (subU64 pr.2 pr.1)

/-! ### Directory search and mutation -/

/-- The recursive binary search `CVFSDir::Search(Name, Start, End)`.  The
bounds are modelled as `Int`: the C++ guard
`End < Start || End == (size_t)-1` detects exactly the frames where the
mathematical `stop` is below `start` (the second disjunct catches the
`Middle - 1` underflow at `Middle = 0`), so on `Int` it collapses to
`stop < start`.  The search window strictly shrinks in every recursive call,
so fuel `m_Childs.size() + 1` (what the callers pass) is never exhausted;
the fuel-out and index-out-of-range fallbacks are unreachable. -/
def searchPos (cs : List Node) (nm : Name) : Nat → Int → Int → Nat
  | 0, _, _ => 0
  | fuel + 1, start, stop =>
    if stop < start then 0
    else if stop = start then stop.toNat
    else
      match cs[(start + (stop - start) / 2).toNat]? with
      | none => 0
      | some c =>
        if c.name = nm then (start + (stop - start) / 2).toNat
        else if nm > c.name then searchPos cs nm fuel (start + (stop - start) / 2 + 1) stop
        else searchPos cs nm fuel start (start + (stop - start) / 2 - 1)

/-- The public `CVFSDir::Search(Name)`: empty guard, binary search over
`[0, size - 1]`, then an equality check on the name at the found position.
The model also returns the position, which the functional tree rebuilding
uses where the C++ mutates through the shared pointer. -/
def searchChild (cs : List Node) (nm : Name) : Option (Nat × Node) :=
  if cs.isEmpty then none
  else
    match cs[searchPos cs nm (cs.length + 1) 0 ((cs.length : Int) - 1)]? with
    | some c =>
      if c.name = nm then some (searchPos cs nm (cs.length + 1) 0 ((cs.length : Int) - 1), c)
      else none
    | none => none

/-- `CVFSDir::InternalAppendChild(Child)`: linear scan for the first child
whose name exceeds the new name, insertion right before it. -/
def internalAppendChild (cs : List Node) (child : Node) : List Node :=
  match cs with
  | [] => [child]
  | c :: rest =>
    if child.name < c.name then child :: c :: rest
    else c :: internalAppendChild rest child

/-- `CVFSDir::RemoveChild(Name)`: binary search (no empty guard — on an
empty child list the source indexes `m_Childs[0]`, undefined behavior,
modelled as `none`), then erasure when the name matches. -/
def removeChild (cs : List Node) (nm : Name) : Option (List Node) :=
  match cs with
  | [] => none
  | _ :: _ =>
    match cs[searchPos cs nm (cs.length + 1) 0 ((cs.length : Int) - 1)]? with
    | some c =>
      some (if c.name = nm
            then cs.eraseIdx (searchPos cs nm (cs.length + 1) 0 ((cs.length : Int) - 1))
            else cs)
    | none => none

/-! ### The facade

The `CVFS` object owns the root directory `"/"`; the model represents the
filesystem state by the root child list. -/

/-- The walk of `CVFS::GetNodeInfo` over the split segments: a found child
is entered when it is a directory or the last segment; otherwise the result
is null. -/
def getNodeAux : List Node → List Name → Option Node
  | _, [] => none
  | cs, [seg] =>
    match searchChild cs seg with
    | some (_, c) => some c
    | none => none
  | cs, seg :: r1 :: rrest =>
    match searchChild cs seg with
    | some (_, Node.dir _ ccs) => getNodeAux ccs (r1 :: rrest)
    | _ => none

/-- `CVFS::GetNodeInfo(Path)`.  `Ret` starts as the root exactly when the
path is the literal `"/"`; with no segments that initial value is returned,
otherwise the walk decides. -/
def GetNodeInfo (cs : List Node) (p : List Char) : Option Node :=
  match SplitPath p with
  | [] => if p = ['/'] then some (Node.dir ['/'] cs) else none
  | _ :: _ => getNodeAux cs (SplitPath p)

/-- `CVFS::NodeExists(Path)`. -/
def NodeExists (cs : List Node) (p : List Char) : Bool :=
  (GetNodeInfo cs p).isSome

/-- `CVFS::FileSize(node)`.  The source dereferences the handle before any
null check (`node->IsDir()`), so a null argument is a crash (undefined
behavior), modelled as `none`; its second branch
`else if (node && !node->IsDir())` is dead code and never throws. -/
def FileSize (node : Option Node) : Option Nat :=
  match node with
  | none => none
  | some (Node.file f) => some f.Size
  | some (Node.dir _ _) => some 0

/-- The walk of `CVFS::CreateDir` over the split segments, acting on a child
list.  An absent segment is created when `Force` holds or it is the last
segment; an absent non-eligible segment or a present non-directory raises
`CANT_CREATE_DIR`.  The source mutates the tree in place; rebuilding is
equivalent because every failing walk fails before the first insertion (a
failure needs a pre-existing conflicting child, and after the first creation
the walk only ever sees freshly created empty directories). -/
def createDirAux (force : Bool) : List Name → List Node → Except VFSError (List Node)
  | [], cs => .ok cs
  | seg :: rest, cs =>
    match searchChild cs seg with
    | none =>
      if force || rest.isEmpty then
        match createDirAux force rest [] with
        | .ok newCs => .ok (internalAppendChild cs (Node.dir seg newCs))
        | .error e => .error e
      else .error .CANT_CREATE_DIR
    | some (pos, Node.dir nm ccs) =>
      match createDirAux force rest ccs with
      | .ok ccs2 => .ok (cs.set pos (Node.dir nm ccs2))
      | .error e => .error e
    | some (_, Node.file _) => .error .CANT_CREATE_DIR

/-- `CVFS::CreateDir(Path, Force)`. -/
def CreateDir (cs : List Node) (p : List Char) (force : Bool) :
    Except VFSError (List Node) :=
  createDirAux force (SplitPath p) cs

/-- The spec-side failure condition of claim C9, following its words: the
walk fails exactly when a segment is absent but not eligible for creation
(`force` is false and it is not the last segment) or when an existing
segment is not a directory.  Absence is plain membership (`find?`), not the
binary search of the implementation. -/
def createDirFails (force : Bool) : List Name → List Node → Bool
  | [], _ => false
  | seg :: rest, cs =>
    match cs.find? (fun c => c.name == seg) with
    | some (Node.dir _ ccs) => createDirFails force rest ccs
    | some (Node.file _) => true
    | none =>
      if force || rest.isEmpty then createDirFails force rest []
      else true

/-- Result of a facade operation: a value, a thrown `CVFSException`, or an
execution that is undefined behavior in the C++ source (out-of-bounds
indexing, null dereference, use after a bad cast). -/
inductive FacadeResult (α : Type) where
  | ok (val : α)
  | err (e : VFSError)
  | invalid

/-- Rebuilds the tree after replacing the node reached by the given segment
walk (the functional counterpart of mutating through the shared pointer
`GetNodeInfo` returns).  Walks exactly like `getNodeAux`. -/
def updateNodeAt : List Node → List Name → (Node → Node) → Option (List Node)
  | _, [], _ => none
  | cs, [seg], f =>
    match searchChild cs seg with
    | some (pos, c) => some (cs.set pos (f c))
    | none => none
  | cs, seg :: r1 :: rrest, f =>
    match searchChild cs seg with
    | some (pos, Node.dir nm ccs) =>
      (updateNodeAt ccs (r1 :: rrest) f).map fun ccs2 => cs.set pos (Node.dir nm ccs2)
    | _ => none

/-- The inner walk of `updateChildsAt` for a non-empty segment list. -/
def updateChildsGo : List Node → List Name → (List Node → Option (List Node)) → Option (List Node)
  | _, [], _ => none
  | cs, [seg], f =>
    match searchChild cs seg with
    | some (pos, Node.dir nm ccs) =>
      (f ccs).map fun ccs2 => cs.set pos (Node.dir nm ccs2)
    | _ => none
  | cs, seg :: r1 :: rrest, f =>
    match searchChild cs seg with
    | some (pos, Node.dir nm ccs) =>
      (updateChildsGo ccs (r1 :: rrest) f).map fun ccs2 => cs.set pos (Node.dir nm ccs2)
    | _ => none

/-- Rebuilds the tree after a mutation of the child list of the directory at
the given path (the functional counterpart of calling `AppendChild` or
`RemoveChild` on the `CVFSDir` a walk returned).  A path with no segments
addresses the root child list when it is the literal `"/"`. -/
def updateChildsAt (cs : List Node) (p : List Char)
    (f : List Node → Option (List Node)) : Option (List Node) :=
  match SplitPath p with
  | [] => if p = ['/'] then f cs else none
  | _ :: _ => updateChildsGo cs (SplitPath p) f

/-- `CVFS::Open(Path, mode)`:
- resolved file: bind a stream to it (the constructor may clear the shared
  file, so the tree is rebuilt with the stream file state);
- resolved directory: throw `CANT_CREATE_FILE`;
- unresolved, mode contains `WRITE`: look up `ExtractPath(Path)`; when that
  yields a node the source casts it to `CVFSDir` and appends a fresh file
  (undefined behavior when the node is actually a file), when it yields
  null the null stream handle is returned unchanged with no mutation;
- unresolved otherwise: throw `CANT_OPEN_FILE`. -/
def Open (cs : List Node) (p : List Char) (mode : Nat) :
    FacadeResult (Option CVFSFileStream × List Node) :=
  match GetNodeInfo cs p with
  | some (Node.dir _ _) => .err .CANT_CREATE_FILE
  | some (Node.file f) =>
    match updateNodeAt cs (SplitPath p) (fun _ => Node.file (mkStream f mode).mFile) with
    | some cs2 => .ok (some (mkStream f mode), cs2)
    | none => .invalid
  | none =>
    if hasMode mode WRITE then
      match GetNodeInfo cs (ExtractPath p) with
      | some (Node.dir _ _) =>
        match updateChildsAt cs (ExtractPath p) (fun ccs =>
            some (internalAppendChild ccs
              (Node.file (mkStream ⟨ExtractName p, 0, []⟩ mode).mFile))) with
        | some cs2 => .ok (some (mkStream ⟨ExtractName p, 0, []⟩ mode), cs2)
        | none => .invalid
      | some (Node.file _) => .invalid
      | none => .ok (none, cs)
    else .err .CANT_OPEN_FILE

/-- `CVFS::Move(From, To)`: both endpoints must exist, the destination must
be a directory; then the node is removed from its source parent and appended
under the destination.  A null or non-directory source parent makes the
source dereference/cast invalid (undefined behavior). -/
def Move (cs : List Node) (src dst : List Char) : FacadeResult (List Node) :=
  if ¬ NodeExists cs src then .err .NODE_DOESNT_EXISTS
  else if ¬ NodeExists cs dst then .err .NODE_DOESNT_EXISTS
  else
    match GetNodeInfo cs dst with
    | none => .invalid
    | some dnode =>
      if ¬ dnode.isDir then .err .NODE_IS_FILE
      else
        match GetNodeInfo cs src, GetNodeInfo cs (ExtractPath src) with
        | some node, some (Node.dir _ _) =>
          match updateChildsAt cs (ExtractPath src) (fun ccs => removeChild ccs node.name) with
          | some cs1 =>
            match updateChildsAt cs1 dst (fun ccs =>
                some (internalAppendChild ccs node)) with
            | some cs2 => .ok cs2
            | none => .invalid
          | none => .invalid
        | _, _ => .invalid

/-- The names of the children of a node, in stored order. -/
def childNames (n : Node) : List Name := n.childs.map Node.name

/-! ### Invariants (spec side) -/

/-- Name order between nodes (strict). -/
def nameLt (a b : Node) : Prop := a.name < b.name

/-- Name order between nodes (reflexive). -/
def nameLe (a b : Node) : Prop := a.name ≤ b.name

/-- The spec invariant on a node: every directory in the subtree keeps its
children strictly sorted by name. -/
inductive NodeInv : Node → Prop where
  | file : ∀ f, NodeInv (Node.file f)
  | dir : ∀ nm cs, List.Pairwise nameLt cs → (∀ c ∈ cs, NodeInv c) →
      NodeInv (Node.dir nm cs)

/-- The spec invariant on a child list (the whole-filesystem invariant when
applied to the root child list). -/
def ChildsInv (cs : List Node) : Prop :=
  List.Pairwise nameLt cs ∧ ∀ c ∈ cs, NodeInv c

/-! ### Concrete states used by the theorems -/

/-- A 1-byte, 1-chunk file. -/
def oneByteFile : CVFSFile := ⟨['f'], 1, [⟨1, [some 97]⟩]⟩

/-- A single-chunk file holding `"ab"`.  Reachable: `Open` in
`WRITE | APPEND` mode creates the file with no chunks and does not clear it,
and the first `Write` then reserves exactly one chunk. -/
def abFile1 : CVFSFile := ⟨['f'], 2, [⟨2, [some 97, some 98]⟩]⟩

/-- The file state after `Open` of a fresh path in `RW` mode (constructor
cleared it to four fresh chunks) followed by `Write "ab"`. -/
def abFile : CVFSFile :=
  ⟨['f'], 2, [⟨2, [some 97, some 98]⟩, SChunk.fresh, SChunk.fresh, SChunk.fresh]⟩

/-- The file a write-mode `Open` creates for the name `x` (the stream
constructor cleared it: size 0, four fresh chunks). -/
def xFile : CVFSFile := (mkStream ⟨['x'], 0, []⟩ WRITE).mFile

/-- Path `"/a"`. -/
def pathA : List Char := ['/', 'a']

/-- Path `"/b"`. -/
def pathB : List Char := ['/', 'b']

/-- Path `"/c"`. -/
def pathC : List Char := ['/', 'c']

/-- Path `"/b/x"`. -/
def pathBX : List Char := ['/', 'b', '/', 'x']

/-- Path `"/c/x"`. -/
def pathCX : List Char := ['/', 'c', '/', 'x']

/-- Root children after `CreateDir "/b"` on the empty filesystem. -/
def treeB : List Node := [Node.dir ['b'] []]

/-- Root children after `CreateDir "/b"` and `CreateDir "/c"`. -/
def treeBC : List Node := [Node.dir ['b'] [], Node.dir ['c'] []]

/-- Root children after additionally `Open "/b/x"` in write mode. -/
def treeBxC : List Node := [Node.dir ['b'] [Node.file xFile], Node.dir ['c'] []]

/-- Root children after additionally `Open "/c/x"` in write mode. -/
def treeBxCx : List Node :=
  [Node.dir ['b'] [Node.file xFile], Node.dir ['c'] [Node.file xFile]]

/-- Root children after additionally `Move "/b/x" "/c"`: the destination now
holds two children named `x`. -/
def treeMoved : List Node :=
  [Node.dir ['b'] [], Node.dir ['c'] [Node.file xFile, Node.file xFile]]

/-- Root children after `CreateDir "/a"` on the empty filesystem. -/
def treeA : List Node := [Node.dir ['a'] []]

/-! ## Theorems -/

/-! ### Helper lemmas -/

/-- Membership after a sorted insertion. -/
theorem mem_internalAppendChild (cs : List Node) (c x : Node) :
    x ∈ internalAppendChild cs c ↔ x = c ∨ x ∈ cs := by
  induction cs with
  | nil => simp [internalAppendChild]
  | cons c0 rest ih =>
    rw [internalAppendChild]
    split
    · simp [List.mem_cons]
    · simp [List.mem_cons, ih]
      tauto

/-- `InternalAppendChild` preserves the non-strict name order. -/
theorem insert_pairwise_le (cs : List Node) (c : Node)
    (h : List.Pairwise nameLe cs) :
    List.Pairwise nameLe (internalAppendChild cs c) := by
  induction cs with
  | nil => simp [internalAppendChild]
  | cons c0 rest ih =>
    rcases List.pairwise_cons.mp h with ⟨h0, hrest⟩
    rw [internalAppendChild]
    by_cases hlt : c.name < c0.name
    · rw [if_pos hlt]
      refine List.pairwise_cons.mpr ⟨?_, h⟩
      intro x hx
      rcases List.mem_cons.mp hx with rfl | hx2
      · exact le_of_lt hlt
      · exact le_trans (le_of_lt hlt) (h0 x hx2)
    · rw [if_neg hlt]
      refine List.pairwise_cons.mpr ⟨?_, ih hrest⟩
      intro x hx
      rcases (mem_internalAppendChild rest c x).mp hx with rfl | hx2
      · exact not_lt.mp hlt
      · exact h0 x hx2

/-- `InternalAppendChild` preserves the strict name order when no sibling
already carries the new name. -/
theorem insert_pairwise_lt (cs : List Node) (c : Node)
    (h : List.Pairwise nameLt cs) (habs : ∀ x ∈ cs, x.name ≠ c.name) :
    List.Pairwise nameLt (internalAppendChild cs c) := by
  induction cs with
  | nil => simp [internalAppendChild]
  | cons c0 rest ih =>
    rcases List.pairwise_cons.mp h with ⟨h0, hrest⟩
    rw [internalAppendChild]
    by_cases hlt : c.name < c0.name
    · rw [if_pos hlt]
      refine List.pairwise_cons.mpr ⟨?_, h⟩
      intro x hx
      rcases List.mem_cons.mp hx with rfl | hx2
      · exact hlt
      · exact lt_trans hlt (h0 x hx2)
    · rw [if_neg hlt]
      refine List.pairwise_cons.mpr ⟨?_, ih hrest fun x hx => habs x (List.mem_cons_of_mem c0 hx)⟩
      intro x hx
      rcases (mem_internalAppendChild rest c x).mp hx with rfl | hx2
      · exact lt_of_le_of_ne (not_lt.mp hlt) (habs c0 (List.mem_cons_self c0 rest))
      · exact h0 x hx2

/-- `subU64` on in-range operands is plain subtraction. -/
theorem subU64_eq (a b : Nat) (hb : b ≤ a) (ha : a < UCARD) : subU64 a b = a - b := by
  unfold subU64 UCARD at *
  omega

/-- `u64ToInt32` on small values is the identity. -/
theorem u64ToInt32_small (v : Nat) (h : v < 2 ^ 31) : u64ToInt32 v = (v : Int) := by
  unfold u64ToInt32
  rw [if_pos (by omega), Nat.mod_eq_of_lt (by omega)]

/-- `intToU64` on small nonnegative values is the identity. -/
theorem intToU64_small (v : Nat) (h : v < 2 ^ 64) : intToU64 (v : Int) = v := by
  unfold intToU64 UCARD
  omega

/-- The bytes an in-bounds chunk copy picks up are the corresponding slice
of the stored bytes. -/
theorem fetch_range (bs : List Byte) (c m : Nat) (h : c + m ≤ bs.length) :
    (List.range m).map (fun i => (bs[c + i]?).join) = (bs.drop c).take m := by
  apply List.ext_getElem
  · simp
    omega
  · intro i h1 h2
    simp only [List.getElem_map, List.getElem_range, List.getElem_take, List.getElem_drop]
    rw [List.getElem?_eq_getElem (by simp at h1; omega)]
    simp

/-- The read loop on a consistent single-chunk file delivers the stored
bytes from the offset on. -/
theorem readLoop_single_chunk (n c : Nat) (bs : List Byte) (hb : bs.length = n)
    (hn : n ≤ CHUNK_SIZE) (hc : c ≤ n) (hcl : c < CHUNK_SIZE) (h1 : 1 ≤ n) :
    readLoop [⟨n, bs⟩] n c 2 0 0 = (n - c, bs.drop c) := by
  have hC : CHUNK_SIZE = 4096 := rfl
  rw [readLoop]
  rw [if_pos (by omega : (0:Nat) < n)]
  rw [dif_pos (by simp : (0:Nat) < ([(⟨n, bs⟩ : SChunk)] : List SChunk).length)]
  simp only [List.getElem_cons_zero, Nat.zero_mul, Nat.mul_zero]
  rw [show subU64 c 0 = c from by
    rw [subU64_eq c 0 (by omega) (by unfold UCARD CHUNK_SIZE at *; omega)]; omega]
  rw [subU64_eq n c hc (by unfold UCARD CHUNK_SIZE at *; omega)]
  rw [u64ToInt32_small (n - c) (by unfold CHUNK_SIZE at *; omega)]
  rw [intToU64_small (n - c) (by unfold CHUNK_SIZE at *; omega)]
  by_cases hcn : c = n
  · rw [if_neg (by omega : ¬ (n - c) > n)]
    rw [if_pos (by omega : ((n - c : Nat) : Int) ≤ 0)]
    rw [hcn]
    simp
    omega
  · rw [if_neg (by omega : ¬ (n - c) > n)]
    rw [if_neg (by omega : ¬ ((n - c : Nat) : Int) ≤ 0)]
    rw [show (((n - c : Nat) : Int)).toNat = n - c from by omega]
    rw [fetch_range bs c (n - c) (by omega)]
    rw [readLoop]
    by_cases hc0 : c = 0
    · rw [if_neg (by omega : ¬ (0 + (n - c) < n))]
      rw [List.take_of_length_le (by simp; omega)]
      simp [hc0]
    · rw [if_pos (by omega : 0 + (n - c) < n)]
      rw [dif_neg (by simp : ¬ ((1:Nat) < ([(⟨n, bs⟩ : SChunk)] : List SChunk).length))]
      rw [List.take_of_length_le (by simp; omega)]
      simp

/-- `CVFSFile::Read` on a consistent single-chunk file, asked for the whole
size, returns the stored bytes from the offset on. -/
theorem fileRead_single_chunk (nm : Name) (n c : Nat) (bs : List Byte)
    (hb : bs.length = n) (hn : n ≤ CHUNK_SIZE) (hc : c ≤ n) (h1 : 1 ≤ n) :
    CVFSFile.Read ⟨nm, n, [⟨n, bs⟩]⟩ n c = (n - c, bs.drop c) := by
  unfold CVFSFile.Read
  by_cases hcl : c < CHUNK_SIZE
  · have hdiv : c / CHUNK_SIZE = 0 := Nat.div_eq_of_lt hcl
    rw [hdiv]
    simpa using readLoop_single_chunk n c bs hb hn hc hcl h1
  · have hc4 : c = CHUNK_SIZE := by omega
    have hn4 : n = CHUNK_SIZE := by omega
    rw [hc4, hn4]
    have hdiv : CHUNK_SIZE / CHUNK_SIZE = 1 := Nat.div_self (by norm_num [CHUNK_SIZE])
    rw [hdiv]
    show readLoop [⟨CHUNK_SIZE, bs⟩] CHUNK_SIZE CHUNK_SIZE 2 0 1 = _
    rw [readLoop]
    rw [if_pos (by norm_num [CHUNK_SIZE] : (0:Nat) < CHUNK_SIZE)]
    rw [dif_neg (by simp : ¬ ((1:Nat) < ([(⟨CHUNK_SIZE, bs⟩ : SChunk)] : List SChunk).length))]
    have hdrop : bs.drop CHUNK_SIZE = [] := List.drop_eq_nil_of_le (by omega)
    rw [hdrop]
    simp

/-! ### Claim C1 -/

/-- C1 (code bug): the claim states that writing a byte sequence `B` through
a write-capable stream reports exactly the length of `B` and round-trips.
The source `CVFSFile::Write` computes each chunk copy size as
`(Size >= Free) ? Free : Size` — the total requested size instead of the
remaining size — so a chunk-spanning write copies too much (reading past the
input buffer) and over-reports.  Evaluated here: writing 4097 bytes to a
freshly opened file reports 8192 bytes written. -/
theorem C1_write_over_reports :
    (((mkStream ⟨['f'], 0, []⟩ RW).Write (List.replicate 4097 65) 4097).map
        (fun r => r.2) = some 8192) ∧ (8192 ≠ 4097) :=
  ⟨rfl, by decide⟩

/-! ### Claim C2 -/

/-- C2 counterexample: the claim states that a seek target before the start
of the file yields cursor 0.  On a 1-byte stream, `Seek(BEG, -1)` converts
the negative offset to `size_t` (a huge value), which is capped at `Size()`:
the cursor ends at 1 = `Size()`, not 0. -/
theorem C2_counterexample :
    (((⟨oneByteFile, RW, 0⟩ : CVFSFileStream).Seek .BEG (-1)).Tell = 1) ∧
    (((⟨oneByteFile, RW, 0⟩ : CVFSFileStream).Seek .BEG (-1)).Tell ≠ 0) :=
  ⟨rfl, by decide⟩

/-- C2 amended: with a non-zero content size, the cursor after
`Seek(origin, offset)` equals the target — computed in unsigned 64-bit
arithmetic from BEG, CUR or END — capped above at `Size()`; a target past
the end (including every negative or under-running offset, whose unsigned
value is huge) therefore yields `Size()`, never 0.  With content size 0 the
seek is a no-op. -/
theorem C2_seek_clamped (s : CVFSFileStream) (cur : Cursor) (bytes : Int) :
    (s.Size = 0 → s.Seek cur bytes = s) ∧
    (s.Size ≠ 0 → (s.Seek cur bytes).Tell = min (seekTarget s cur bytes) s.Size) := by
  constructor
  · intro h
    simp [CVFSFileStream.Seek, h]
  · intro h
    cases cur <;>
      · simp only [CVFSFileStream.Seek, CVFSFileStream.Tell, seekTarget, if_neg h]
        split <;> omega

/-- C2 witness: the amended statement evaluated on a 2-byte stream with
`Seek(END, -1)`. -/
theorem C2_seek_clamped_witness :
    ((⟨abFile1, RW, 0⟩ : CVFSFileStream).Size ≠ 0) ∧
    (((⟨abFile1, RW, 0⟩ : CVFSFileStream).Seek .END (-1)).Tell
      = min (seekTarget ⟨abFile1, RW, 0⟩ .END (-1)) (⟨abFile1, RW, 0⟩ : CVFSFileStream).Size) :=
  ⟨by decide, (C2_seek_clamped ⟨abFile1, RW, 0⟩ .END (-1)).2 (by decide)⟩

/-! ### Claim C3 -/

/-- C3 counterexample: the claim states that the no-argument `Read()`
returns the entire content, reading from offset 0.  On a single-chunk file
holding `"ab"` with the cursor at 1, `Read()` returns `"b"` followed by a
zero byte — it reads from the cursor (the demo in main.cpp relies on this:
`Seek(END, -3)` followed by `Read()` prints the last bytes), not from
offset 0, which would give `"ab"`. -/
theorem C3_counterexample :
    (((⟨abFile1, READ, 1⟩ : CVFSFileStream).ReadAll).2 = [some 98, some 0]) ∧
    (((⟨abFile1, READ, 1⟩ : CVFSFileStream).ReadAll).2 ≠ [some 97, some 98]) :=
  ⟨rfl, by decide⟩

/-- C3 amended: `Read()` returns a buffer whose length equals the content
size at the time of the call, filled by reading at the current cursor — not
at offset 0 — with the unread tail left as the zero bytes of the resized
string (stated for a consistent single-chunk file and a cursor within the
content, where the chunk walk is exact). -/
theorem C3_readAll_from_cursor (nm : Name) (bs : List Byte) (n c mode : Nat)
    (hb : bs.length = n) (hn : n ≤ CHUNK_SIZE) (hc : c ≤ n)
    (hm : hasMode mode READ = true) :
    (CVFSFileStream.ReadAll ⟨⟨nm, n, [⟨n, bs⟩]⟩, mode, c⟩).2
      = bs.drop c ++ List.replicate c (some 0) := by
  by_cases h0 : n = 0
  · have hbs : bs = [] := List.length_eq_zero.mp (by omega)
    have hc0 : c = 0 := by omega
    subst h0
    subst hbs
    subst hc0
    simp [CVFSFileStream.ReadAll, CVFSFileStream.Read, CVFSFileStream.Size, CVFSFile.Size]
  · have hfr := fileRead_single_chunk nm n c bs hb hn hc (by omega)
    simp only [CVFSFileStream.ReadAll, CVFSFileStream.Read, CVFSFileStream.Size, CVFSFile.Size]
    rw [if_pos (show (hasMode mode READ = true) ∧ ¬ (n = 0) from ⟨hm, h0⟩)]
    simp only [hfr]
    rw [List.take_of_length_le (by simp [hb])]
    have hrep : n - (bs.drop c).length = c := by simp [hb]; omega
    rw [hrep]

/-- C3 witness: the amended statement evaluated on the `"ab"` file with the
cursor at 1 under mode `READ`. -/
theorem C3_readAll_from_cursor_witness :
    (CVFSFileStream.ReadAll ⟨abFile1, READ, 1⟩).2
      = [some 97, some 98].drop 1 ++ List.replicate 1 (some 0) :=
  C3_readAll_from_cursor ['f'] [some 97, some 98] 2 1 READ rfl (by decide)
    (by decide) rfl

/-! ### Claim C4 -/

/-- C4 (code bug): the claim states that `FileSize` returns 0 for a
directory or an absent (null) node and never crashes.  The source returns
the stored size for files and 0 for directories, but its very first test
`node->IsDir()` dereferences the handle, so a null argument crashes
(undefined behavior, modelled as `none`); the null-checking branch
`else if (node && !node->IsDir())` is unreachable dead code. -/
theorem C4_filesize_null_crash :
    (FileSize none = none) ∧ (FileSize none ≠ some 0) ∧
    (FileSize (some (Node.dir ['d'] [])) = some 0) ∧
    (FileSize (some (Node.file oneByteFile)) = some 1) :=
  ⟨rfl, by decide, rfl, rfl⟩

/-! ### Claim C5 -/

/-- C5 (code bug): the claim (and the spec of `Clear`) states that a
non-append `Open` clears the bound content, leaving size 0.  The source
constructor does call `Clear`, which discards all chunks — but `Clear` never
resets `m_Size`, so the file reports its stale pre-open size while every
chunk is empty, breaking the documented `size = sum of filled bytes`
invariant.  With `APPEND` the content is indeed left unchanged. -/
theorem C5_clear_keeps_stale_size :
    ((mkStream oneByteFile READ).Size = 1) ∧
    ((mkStream oneByteFile READ).Size ≠ 0) ∧
    ((mkStream oneByteFile READ).mFile.mData
      = [SChunk.fresh, SChunk.fresh, SChunk.fresh, SChunk.fresh]) ∧
    (mkStream oneByteFile (READ + APPEND) = ⟨oneByteFile, READ + APPEND, 0⟩) :=
  ⟨rfl, by decide, rfl, rfl⟩

/-! ### Claim C6 -/

/-- C6 counterexample: the claim states that after every sequence of facade
operations the children of every directory are strictly ascending by name
with no duplicates.  The sequence `CreateDir "/b"`, `CreateDir "/c"`,
`Open "/b/x"` (write), `Open "/c/x"` (write), `Move "/b/x" "/c"` succeeds,
yet afterwards the directory `/c` holds two children named `x` — `Move`
never checks the destination for an existing child of the same name — so the
children are not strictly ascending. -/
theorem C6_counterexample :
    (CreateDir [] pathB false = .ok treeB) ∧
    (CreateDir treeB pathC false = .ok treeBC) ∧
    (Open treeBC pathBX WRITE = .ok (some (mkStream ⟨['x'], 0, []⟩ WRITE), treeBxC)) ∧
    (Open treeBxC pathCX WRITE = .ok (some (mkStream ⟨['x'], 0, []⟩ WRITE), treeBxCx)) ∧
    (Move treeBxCx pathBX pathC = .ok treeMoved) ∧
    ((GetNodeInfo treeMoved pathC).map childNames = some [['x'], ['x']]) ∧
    ¬ List.Pairwise (fun a b : Name => a < b) [['x'], ['x']] :=
  ⟨rfl, rfl, rfl, rfl, rfl, rfl, by decide⟩

/-- C6 amended: every child-collection mutation the source performs — an
insertion via `InternalAppendChild` or an erasure — preserves the
non-decreasing (not strictly ascending) name order of the children; the
no-duplicate half of the claimed invariant fails, because `Move` appends the
moved node without guarding against an existing child of the same name in
the destination directory. -/
theorem C6_mutations_keep_nonstrict_order (cs : List Node) (c : Node) (i : Nat)
    (h : List.Pairwise nameLe cs) :
    List.Pairwise nameLe (internalAppendChild cs c) ∧
    List.Pairwise nameLe (cs.eraseIdx i) :=
  ⟨insert_pairwise_le cs c h, h.sublist (List.eraseIdx_sublist cs i)⟩

/-- C6 witness: inserting a node named `x` into a singleton child list that
already holds the name `x` keeps the non-decreasing order (with the
duplicate sitting next to the original). -/
theorem C6_mutations_keep_nonstrict_order_witness :
    List.Pairwise nameLe (internalAppendChild [Node.dir ['x'] []] (Node.dir ['x'] [])) ∧
    List.Pairwise nameLe (([Node.dir ['x'] []] : List Node).eraseIdx 0) :=
  C6_mutations_keep_nonstrict_order [Node.dir ['x'] []] (Node.dir ['x'] []) 0 (by simp)

/-! ### Claim C7 -/

/-- C7 (code bug): the claim states the invariant `cursor ≤ size` after
every stream operation.  `CVFSFile::Read` recomputes the in-chunk offset
from the unchanged `CurPos` in later iterations (underflowing as `size_t`)
and caps the copy count at the total buffer size instead of the remaining
size, so reading 5 bytes of a 2-byte file — in the state produced by `Open`
(RW) followed by `Write "ab"` — returns 7 and pushes the cursor to
7 > 2 = size. -/
theorem C7_cursor_exceeds_size :
    ((mkStream ⟨['f'], 0, []⟩ RW).Write [97, 98] 2 = some (⟨abFile, RW, 0⟩, 2)) ∧
    (((⟨abFile, RW, 0⟩ : CVFSFileStream).Read 5).1.Tell = 7) ∧
    (((⟨abFile, RW, 0⟩ : CVFSFileStream).Read 5).1.Size = 2) ∧
    ¬ (((⟨abFile, RW, 0⟩ : CVFSFileStream).Read 5).1.Tell
        ≤ ((⟨abFile, RW, 0⟩ : CVFSFileStream).Read 5).1.Size) :=
  ⟨rfl, rfl, rfl, by decide⟩

/-! ### Claim C8 -/

/-- `GetNodeInfo` on a path with at least one segment is the segment walk. -/
theorem getNodeInfo_eq_aux (cs : List Node) (p : List Char) (h : SplitPath p ≠ []) :
    GetNodeInfo cs p = getNodeAux cs (SplitPath p) := by
  cases hsp : SplitPath p with
  | nil => exact absurd hsp h
  | cons a l => simp only [GetNodeInfo, hsp]

/-- A path resolving to a file has at least one segment and resolves through
the segment walk. -/
theorem getNodeInfo_file_aux (cs : List Node) (p : List Char) (f : CVFSFile)
    (h : GetNodeInfo cs p = some (Node.file f)) :
    SplitPath p ≠ [] ∧ getNodeAux cs (SplitPath p) = some (Node.file f) := by
  cases hsp : SplitPath p with
  | nil =>
    simp only [GetNodeInfo, hsp] at h
    split at h
    · cases h
    · cases h
  | cons a l =>
    simp only [GetNodeInfo, hsp] at h
    exact ⟨by simp [hsp], h⟩

/-- When the lookup walk finds a node, the rebuilding walk (with a total
update function) succeeds. -/
theorem updateNodeAt_isSome (f : Node → Node) :
    ∀ (dirs : List Name) (cs : List Node) (n : Node),
      getNodeAux cs dirs = some n → ∃ cs2, updateNodeAt cs dirs f = some cs2 := by
  intro dirs
  induction dirs with
  | nil =>
    intro cs n h
    simp [getNodeAux] at h
  | cons seg rest ih =>
    intro cs n h
    cases hsc : searchChild cs seg with
    | none =>
      cases rest with
      | nil => simp [getNodeAux, hsc] at h
      | cons r1 rrest => simp [getNodeAux, hsc] at h
    | some pc =>
      obtain ⟨pos, c⟩ := pc
      cases rest with
      | nil =>
        refine ⟨cs.set pos (f c), ?_⟩
        simp [updateNodeAt, hsc]
      | cons r1 rrest =>
        cases c with
        | file f2 => simp [getNodeAux, hsc] at h
        | dir nm ccs =>
          have h2 : getNodeAux ccs (r1 :: rrest) = some n := by
            simpa [getNodeAux, hsc] using h
          obtain ⟨cs3, h3⟩ := ih ccs n h2
          refine ⟨cs.set pos (Node.dir nm cs3), ?_⟩
          simp [updateNodeAt, hsc, h3]

/-- When the lookup walk finds a directory, the child-list rebuilding walk
(with a total mutation) succeeds. -/
theorem updateChildsGo_isSome (g : List Node → List Node) :
    ∀ (dirs : List Name) (cs : List Node) (nm : Name) (dcs : List Node),
      getNodeAux cs dirs = some (Node.dir nm dcs) →
      ∃ cs2, updateChildsGo cs dirs (fun l => some (g l)) = some cs2 := by
  intro dirs
  induction dirs with
  | nil =>
    intro cs nm dcs h
    simp [getNodeAux] at h
  | cons seg rest ih =>
    intro cs nm dcs h
    cases hsc : searchChild cs seg with
    | none =>
      cases rest with
      | nil => simp [getNodeAux, hsc] at h
      | cons r1 rrest => simp [getNodeAux, hsc] at h
    | some pc =>
      obtain ⟨pos, c⟩ := pc
      cases rest with
      | nil =>
        have hc : c = Node.dir nm dcs := by simpa [getNodeAux, hsc] using h
        subst hc
        refine ⟨cs.set pos (Node.dir nm (g dcs)), ?_⟩
        simp [updateChildsGo, hsc]
      | cons r1 rrest =>
        cases c with
        | file f2 => simp [getNodeAux, hsc] at h
        | dir nm2 ccs =>
          have h2 : getNodeAux ccs (r1 :: rrest) = some (Node.dir nm dcs) := by
            simpa [getNodeAux, hsc] using h
          obtain ⟨cs3, h3⟩ := ih ccs nm dcs h2
          refine ⟨cs.set pos (Node.dir nm2 cs3), ?_⟩
          simp [updateChildsGo, hsc, h3]

/-- C8 counterexample: the claim states that an unresolved path opened with
`WRITE` gets a file created under the resolved parent directory and a bound
stream.  On the empty filesystem, `"/a"` does not resolve and its parent
directory — the root — exists, yet `Open "/a"` (WRITE) creates nothing and
returns the null stream handle: the source computes the parent as the string
`ExtractPath("/a") = ""`, which `GetNodeInfo` never resolves (only the
literal `"/"` names the root), so the creation branch is skipped with no
error. -/
theorem C8_counterexample :
    (GetNodeInfo [] pathA = none) ∧ (hasMode WRITE WRITE = true) ∧
    (GetNodeInfo [] ['/'] = some (Node.dir ['/'] [])) ∧
    (Open [] pathA WRITE = .ok (none, [])) ∧
    (¬ ∃ st t, Open [] pathA WRITE = FacadeResult.ok (some st, t)) ∧
    (NodeExists [] pathA = false) := by
  refine ⟨rfl, rfl, rfl, rfl, ?_, rfl⟩
  rintro ⟨st, t, h⟩
  rw [show Open [] pathA WRITE = FacadeResult.ok (none, ([] : List Node)) from rfl] at h
  simp at h

/-- C8 amended: `Open(path, mode)` behaves as follows.  A path resolving to
a directory fails with `CANT_CREATE_FILE`; a path resolving to a file gets a
stream bound to it under the requested mode; an unresolved path with a mode
lacking `WRITE` fails with `CANT_OPEN_FILE`; an unresolved path with `WRITE`
creates a file named `ExtractName(path)` and returns a stream bound to it
only when the parent string `ExtractPath(path)` itself resolves to a node —
when that lookup yields nothing (in particular for every root-level path,
whose parent string is empty), `Open` returns a null stream handle with no
error and no mutation.  (A parent resolving to a file is undefined behavior
in the source and is excluded here.) -/
theorem C8_open_cases (cs : List Node) (p : List Char) (mode : Nat) :
    (∀ nm dcs, GetNodeInfo cs p = some (Node.dir nm dcs) →
        Open cs p mode = .err .CANT_CREATE_FILE) ∧
    (∀ f, GetNodeInfo cs p = some (Node.file f) →
        ∃ t, Open cs p mode = .ok (some (mkStream f mode), t)) ∧
    (GetNodeInfo cs p = none → hasMode mode WRITE = false →
        Open cs p mode = .err .CANT_OPEN_FILE) ∧
    (GetNodeInfo cs p = none → hasMode mode WRITE = true →
        GetNodeInfo cs (ExtractPath p) = none → Open cs p mode = .ok (none, cs)) ∧
    (GetNodeInfo cs p = none → hasMode mode WRITE = true →
        ∀ nm dcs, GetNodeInfo cs (ExtractPath p) = some (Node.dir nm dcs) →
        ∃ t, Open cs p mode = .ok (some (mkStream ⟨ExtractName p, 0, []⟩ mode), t)) := by
  refine ⟨?_, ?_, ?_, ?_, ?_⟩
  · intro nm dcs h
    unfold Open
    rw [h]
  · intro f h
    obtain ⟨hne, haux⟩ := getNodeInfo_file_aux cs p f h
    obtain ⟨cs2, h2⟩ :=
      updateNodeAt_isSome (fun _ => Node.file (mkStream f mode).mFile) (SplitPath p) cs
        (Node.file f) haux
    refine ⟨cs2, ?_⟩
    unfold Open
    rw [h]
    dsimp only
    rw [h2]
  · intro h hw
    unfold Open
    rw [h]
    simp [hw]
  · intro h hw hp
    unfold Open
    rw [h, hp]
    simp [hw]
  · intro h hw nm dcs hp
    unfold Open
    rw [h, hp]
    simp only [hw, if_true]
    have hup : ∃ cs2, updateChildsAt cs (ExtractPath p) (fun ccs =>
        some (internalAppendChild ccs
          (Node.file (mkStream ⟨ExtractName p, 0, []⟩ mode).mFile))) = some cs2 := by
      unfold updateChildsAt
      cases hsp : SplitPath (ExtractPath p) with
      | nil =>
        simp only [GetNodeInfo, hsp] at hp
        dsimp only
        by_cases hroot : ExtractPath p = ['/']
        · rw [if_pos hroot]
          exact ⟨_, rfl⟩
        · rw [if_neg hroot] at hp
          cases hp
      | cons a l =>
        simp only [GetNodeInfo, hsp] at hp
        dsimp only
        exact updateChildsGo_isSome _ (a :: l) cs nm dcs hp
    obtain ⟨cs2, h2⟩ := hup
    rw [h2]
    exact ⟨cs2, rfl⟩

/-- C8 witness: the amended statement evaluated at the unresolved root-level
path `"/a"` with mode `WRITE` on the empty filesystem. -/
theorem C8_open_cases_witness :
    Open [] pathA WRITE = .ok (none, []) :=
  (C8_open_cases [] pathA WRITE).2.2.2.1 rfl rfl rfl

/-! ### Claim C9, counterexample and claim C10 -/
/-- In a strictly sorted child list, equal names force equal indices. -/
theorem get_name_inj (cs : List Node) (hs : List.Pairwise nameLt cs)
    (i k : Fin cs.length) (h : (cs.get i).name = (cs.get k).name) : i = k := by
  have hmono : ∀ (a b : Fin cs.length), a < b → nameLt (cs.get a) (cs.get b) :=
    fun a b hab => List.pairwise_iff_get.mp hs a b hab
  rcases lt_trichotomy i k with hlt | heq | hgt
  · have := hmono i k hlt
    unfold nameLt at this
    rw [h] at this
    exact absurd this (lt_irrefl _)
  · exact heq
  · have := hmono k i hgt
    unfold nameLt at this
    rw [h] at this
    exact absurd this (lt_irrefl _)

/-- In a strictly sorted child list, name order reflects index order. -/
theorem get_name_lt_index (cs : List Node) (hs : List.Pairwise nameLt cs)
    (i k : Fin cs.length) (h : (cs.get i).name < (cs.get k).name) : i < k := by
  have hmono : ∀ (a b : Fin cs.length), a < b → nameLt (cs.get a) (cs.get b) :=
    fun a b hab => List.pairwise_iff_get.mp hs a b hab
  rcases lt_trichotomy i k with hlt | heq | hgt
  · exact hlt
  · rw [heq] at h
    exact absurd h (lt_irrefl _)
  · have := hmono k i hgt
    unfold nameLt at this
    exact absurd (lt_trans h this) (lt_irrefl _)

/-- Binary search correctness on a strictly sorted child list: whenever the
search window `[start, stop]` contains the index of the sought name, the
recursive `Search` returns that index.  The list length bounds the fuel
consumption because the window strictly shrinks. -/
theorem searchPos_finds (cs : List Node) (nm : Name) (hs : List.Pairwise nameLt cs)
    (j : Nat) (hj : j < cs.length) (hname : (cs.get ⟨j, hj⟩).name = nm) :
    ∀ (fuel : Nat) (start stop : Int), start ≤ (j : Int) → (j : Int) ≤ stop →
      stop < (cs.length : Int) → (stop - start).toNat < fuel →
      searchPos cs nm fuel start stop = j := by
  intro fuel
  induction fuel with
  | zero =>
    intro start stop h1 h2 h3 h4
    omega
  | succ n ih =>
    intro start stop h1 h2 h3 h4
    rw [searchPos]
    rw [if_neg (by omega : ¬ stop < start)]
    by_cases heq : stop = start
    · rw [if_pos heq]
      omega
    · rw [if_neg heq]
      have hmid1 : start ≤ start + (stop - start) / 2 := by omega
      have hmid2 : start + (stop - start) / 2 < stop := by omega
      have hmidn : (start + (stop - start) / 2).toNat < cs.length := by omega
      rw [List.getElem?_eq_getElem hmidn]
      dsimp only
      rw [show cs[(start + (stop - start) / 2).toNat] =
          cs.get ⟨(start + (stop - start) / 2).toNat, hmidn⟩ from rfl]
      by_cases hceq : (cs.get ⟨(start + (stop - start) / 2).toNat, hmidn⟩).name = nm
      · rw [if_pos hceq]
        have hMJ : (⟨(start + (stop - start) / 2).toNat, hmidn⟩ : Fin cs.length) = ⟨j, hj⟩ :=
          get_name_inj cs hs _ _ (by rw [hceq, hname])
        exact congrArg Fin.val hMJ
      · rw [if_neg hceq]
        by_cases hgt : nm > (cs.get ⟨(start + (stop - start) / 2).toNat, hmidn⟩).name
        · rw [if_pos hgt]
          have hMJ : (⟨(start + (stop - start) / 2).toNat, hmidn⟩ : Fin cs.length) < ⟨j, hj⟩ :=
            get_name_lt_index cs hs _ _ (by rw [hname]; exact hgt)
          have hMJv : (start + (stop - start) / 2).toNat < j := hMJ
          exact ih (start + (stop - start) / 2 + 1) stop (by omega) h2 h3 (by omega)
        · rw [if_neg hgt]
          have hcl : nm < (cs.get ⟨(start + (stop - start) / 2).toNat, hmidn⟩).name :=
            lt_of_le_of_ne (not_lt.mp hgt) (fun hx => hceq hx.symm)
          have hMJ : (⟨j, hj⟩ : Fin cs.length) < ⟨(start + (stop - start) / 2).toNat, hmidn⟩ :=
            get_name_lt_index cs hs _ _ (by rw [hname]; exact hcl)
          have hMJv : j < (start + (stop - start) / 2).toNat := hMJ
          exact ih start (start + (stop - start) / 2 - 1) h1 (by omega) (by omega) (by omega)



/-- On a strictly sorted child list, `Search` finds every present name (and
reports its position). -/
theorem searchChild_of_mem (cs : List Node) (nm : Name) (hs : List.Pairwise nameLt cs)
    (c : Node) (hc : c ∈ cs) (hn : c.name = nm) :
    ∃ pos, ∃ hlt : pos < cs.length,
      cs.get ⟨pos, hlt⟩ = c ∧ searchChild cs nm = some (pos, c) := by
  obtain ⟨⟨j, hj⟩, hget⟩ := List.mem_iff_get.mp hc
  have hsp : searchPos cs nm (cs.length + 1) 0 ((cs.length : Int) - 1) = j :=
    searchPos_finds cs nm hs j hj (by rw [hget]; exact hn)
      (cs.length + 1) 0 ((cs.length : Int) - 1)
      (by omega) (by omega) (by omega) (by omega)
  refine ⟨j, hj, hget, ?_⟩
  unfold searchChild
  rw [if_neg (by simp [List.isEmpty_iff]; intro hx; rw [hx] at hj; simp at hj)]
  rw [hsp]
  rw [List.getElem?_eq_getElem hj]
  dsimp only
  rw [show cs[j] = cs.get ⟨j, hj⟩ from rfl, hget]
  rw [if_pos hn]

/-- `Search` never invents a name: an absent name yields null. -/
theorem searchChild_eq_none (cs : List Node) (nm : Name)
    (habs : ∀ c ∈ cs, c.name ≠ nm) : searchChild cs nm = none := by
  unfold searchChild
  by_cases he : cs.isEmpty
  · rw [if_pos he]
  · rw [if_neg he]
    cases hg : cs[searchPos cs nm (cs.length + 1) 0 ((cs.length : Int) - 1)]? with
    | none => rfl
    | some c =>
      dsimp only
      obtain ⟨hlt2, heq2⟩ := List.getElem?_eq_some_iff.mp hg
      rw [if_neg (habs c (heq2 ▸ List.getElem_mem hlt2))]

/-- What a successful `Search` returns: the child at the reported position,
carrying the sought name. -/
theorem searchChild_some_spec (cs : List Node) (nm : Name) (pos : Nat) (c : Node)
    (h : searchChild cs nm = some (pos, c)) :
    ∃ hlt : pos < cs.length, cs.get ⟨pos, hlt⟩ = c ∧ c.name = nm := by
  unfold searchChild at h
  by_cases he : cs.isEmpty
  · rw [if_pos he] at h
    cases h
  · rw [if_neg he] at h
    cases hg : cs[searchPos cs nm (cs.length + 1) 0 ((cs.length : Int) - 1)]? with
    | none =>
      rw [hg] at h
      cases h
    | some c2 =>
      rw [hg] at h
      dsimp only at h
      by_cases hn : c2.name = nm
      · rw [if_pos hn] at h
        obtain ⟨hlt2, heq2⟩ := List.getElem?_eq_some_iff.mp hg
        cases h
        exact ⟨hlt2, heq2, hn⟩
      · rw [if_neg hn] at h
        cases h

/-- On a strictly sorted child list, the binary `Search` agrees with plain
linear lookup. -/
theorem searchChild_eq_find (cs : List Node) (nm : Name) (hs : List.Pairwise nameLt cs) :
    (searchChild cs nm).map Prod.snd = cs.find? (fun c => c.name == nm) := by
  cases hf : cs.find? (fun c => c.name == nm) with
  | some c =>
    have hcm : c ∈ cs := List.mem_of_find?_eq_some hf
    have hcn : c.name = nm := by simpa using List.find?_some hf
    obtain ⟨pos, hlt, hget, hsc⟩ := searchChild_of_mem cs nm hs c hcm hcn
    rw [hsc]
    rfl
  | none =>
    have habs : ∀ c ∈ cs, c.name ≠ nm := by
      intro c hc
      have := List.find?_eq_none.mp hf c hc
      simpa using this
    rw [searchChild_eq_none cs nm habs]
    rfl



/-- Replacing a child by one of the same name preserves the strict name
order. -/
theorem pairwise_set_name (cs : List Node) (pos : Nat) (x : Node)
    (hs : List.Pairwise nameLt cs) (hpos : pos < cs.length)
    (hname : x.name = (cs.get ⟨pos, hpos⟩).name) :
    List.Pairwise nameLt (cs.set pos x) := by
  rw [List.pairwise_iff_get] at hs ⊢
  intro i k hik
  have hil : (i : Nat) < cs.length := by simpa using i.2
  have hkl : (k : Nat) < cs.length := by simpa using k.2
  have hgi : ((cs.set pos x).get i).name = (cs.get ⟨i, hil⟩).name := by
    rw [List.get_eq_getElem, List.getElem_set]
    by_cases hpi : pos = (i : Nat)
    · rw [if_pos hpi]
      rw [hname]
      exact congrArg Node.name (congrArg cs.get (Fin.ext hpi))
    · rw [if_neg hpi]
      rfl
  have hgk : ((cs.set pos x).get k).name = (cs.get ⟨k, hkl⟩).name := by
    rw [List.get_eq_getElem, List.getElem_set]
    by_cases hpk : pos = (k : Nat)
    · rw [if_pos hpk]
      rw [hname]
      exact congrArg Node.name (congrArg cs.get (Fin.ext hpk))
    · rw [if_neg hpk]
      rfl
  have hmain := hs ⟨i, hil⟩ ⟨k, hkl⟩ hik
  unfold nameLt at hmain ⊢
  rw [hgi, hgk]
  exact hmain

/-- Inverting the subtree invariant of a directory node. -/
theorem nodeInv_dir_childs (nm : Name) (cs : List Node)
    (h : NodeInv (Node.dir nm cs)) : ChildsInv cs := by
  cases h with
  | dir nm cs h1 h2 => exact ⟨h1, h2⟩

/-- `ChildsInv` is preserved by replacing a child with a same-named node
that satisfies the subtree invariant. -/
theorem childsInv_set (cs : List Node) (pos : Nat) (x : Node)
    (hinv : ChildsInv cs) (hpos : pos < cs.length)
    (hname : x.name = (cs.get ⟨pos, hpos⟩).name) (hx : NodeInv x) :
    ChildsInv (cs.set pos x) := by
  refine ⟨pairwise_set_name cs pos x hinv.1 hpos hname, ?_⟩
  intro c hc
  rcases List.mem_or_eq_of_mem_set hc with hcm | rfl
  · exact hinv.2 c hcm
  · exact hx

/-- `ChildsInv` is preserved by inserting a fresh-named node that satisfies
the subtree invariant. -/
theorem childsInv_insert (cs : List Node) (c : Node) (hinv : ChildsInv cs)
    (habs : ∀ x ∈ cs, x.name ≠ c.name) (hc : NodeInv c) :
    ChildsInv (internalAppendChild cs c) := by
  refine ⟨insert_pairwise_lt cs c hinv.1 habs, ?_⟩
  intro x hx
  rcases (mem_internalAppendChild cs c x).mp hx with rfl | hx2
  · exact hc
  · exact hinv.2 x hx2



/-- The walk of `CreateDir`, on an invariant-satisfying child list:
success preserves the invariant, and afterwards the walked path resolves to
a directory. -/
theorem createDirAux_ok_lookup (force : Bool) :
    ∀ (segs : List Name) (cs cs2 : List Node), ChildsInv cs →
      createDirAux force segs cs = .ok cs2 →
      ChildsInv cs2 ∧
      (segs ≠ [] → ∃ nm dcs, getNodeAux cs2 segs = some (Node.dir nm dcs)) := by
  intro segs
  induction segs with
  | nil =>
    intro cs cs2 hinv h
    simp only [createDirAux] at h
    cases h
    exact ⟨hinv, fun hne => absurd rfl hne⟩
  | cons seg rest ih =>
    intro cs cs2 hinv h
    cases hsc : searchChild cs seg with
    | none =>
      simp only [createDirAux, hsc] at h
      by_cases helig : (force || rest.isEmpty) = true
      · rw [if_pos helig] at h
        cases hrec : createDirAux force rest [] with
        | error e =>
          rw [hrec] at h
          dsimp only at h
          cases h
        | ok newCs =>
          rw [hrec] at h
          dsimp only at h
          cases h
          obtain ⟨hinvNew, hlookNew⟩ := ih [] newCs ⟨List.Pairwise.nil, by simp⟩ hrec
          have habs : ∀ x ∈ cs, x.name ≠ (Node.dir seg newCs).name := by
            intro x hx hn
            obtain ⟨pos, hlt, hget, hs2⟩ :=
              searchChild_of_mem cs seg hinv.1 x hx (by simpa [Node.name] using hn)
            rw [hs2] at hsc
            cases hsc
          have hinv2 : ChildsInv (internalAppendChild cs (Node.dir seg newCs)) :=
            childsInv_insert cs _ hinv habs (NodeInv.dir _ _ hinvNew.1 hinvNew.2)
          refine ⟨hinv2, fun _ => ?_⟩
          obtain ⟨pos2, hlt2, hget2, hsc2⟩ :=
            searchChild_of_mem (internalAppendChild cs (Node.dir seg newCs)) seg hinv2.1
              (Node.dir seg newCs)
              ((mem_internalAppendChild cs _ _).mpr (Or.inl rfl)) rfl
          cases rest with
          | nil =>
            exact ⟨seg, newCs, by simp [getNodeAux, hsc2]⟩
          | cons r1 rrest =>
            obtain ⟨nm3, dcs3, hlook3⟩ := hlookNew (by simp)
            exact ⟨nm3, dcs3, by simp [getNodeAux, hsc2, hlook3]⟩
      · rw [if_neg helig] at h
        cases h
    | some pc =>
      obtain ⟨pos, c⟩ := pc
      cases c with
      | file f2 =>
        simp only [createDirAux, hsc] at h
        cases h
      | dir nm ccs =>
        simp only [createDirAux, hsc] at h
        obtain ⟨hplt, hpget, hpname⟩ := searchChild_some_spec cs seg pos (Node.dir nm ccs) hsc
        have hccsInv : ChildsInv ccs :=
          nodeInv_dir_childs nm ccs (hinv.2 _ (hpget ▸ List.get_mem cs pos hplt))
        cases hrec : createDirAux force rest ccs with
        | error e =>
          rw [hrec] at h
          dsimp only at h
          cases h
        | ok ccs2 =>
          rw [hrec] at h
          dsimp only at h
          cases h
          obtain ⟨hinvC2, hlookC2⟩ := ih ccs ccs2 hccsInv hrec
          have hname2 : (Node.dir nm ccs2).name = (cs.get ⟨pos, hplt⟩).name := by
            rw [hpget]
            rfl
          have hinv2 : ChildsInv (cs.set pos (Node.dir nm ccs2)) :=
            childsInv_set cs pos _ hinv hplt hname2 (NodeInv.dir _ _ hinvC2.1 hinvC2.2)
          refine ⟨hinv2, fun _ => ?_⟩
          have hplt2 : pos < (cs.set pos (Node.dir nm ccs2)).length := by simpa using hplt
          have hmem2 : Node.dir nm ccs2 ∈ cs.set pos (Node.dir nm ccs2) := by
            have hm := List.getElem_mem hplt2
            rwa [List.getElem_set_self hplt2] at hm
          have hnm2 : (Node.dir nm ccs2).name = seg := by
            simpa [Node.name] using hpname
          obtain ⟨pos2, hlt2, hget2, hsc2⟩ :=
            searchChild_of_mem _ seg hinv2.1 _ hmem2 hnm2
          cases rest with
          | nil =>
            exact ⟨nm, ccs2, by simp [getNodeAux, hsc2]⟩
          | cons r1 rrest =>
            obtain ⟨nm3, dcs3, hlook3⟩ := hlookC2 (by simp)
            exact ⟨nm3, dcs3, by simp [getNodeAux, hsc2, hlook3]⟩



/-- `CreateDir` only ever throws `CANT_CREATE_DIR` (allocation failure is
outside the model). -/
theorem createDirAux_err_only (force : Bool) :
    ∀ (segs : List Name) (cs : List Node) (e : VFSError),
      createDirAux force segs cs = .error e → e = .CANT_CREATE_DIR := by
  intro segs
  induction segs with
  | nil =>
    intro cs e h
    simp [createDirAux] at h
  | cons seg rest ih =>
    intro cs e h
    cases hsc : searchChild cs seg with
    | none =>
      simp only [createDirAux, hsc] at h
      by_cases helig : (force || rest.isEmpty) = true
      · rw [if_pos helig] at h
        cases hrec : createDirAux force rest [] with
        | ok newCs =>
          rw [hrec] at h
          dsimp only at h
          cases h
        | error e2 =>
          rw [hrec] at h
          dsimp only at h
          cases h
          exact ih [] _ hrec
      · rw [if_neg helig] at h
        cases h
        rfl
    | some pc =>
      obtain ⟨pos, c⟩ := pc
      cases c with
      | file f2 =>
        simp only [createDirAux, hsc] at h
        cases h
        rfl
      | dir nm ccs =>
        simp only [createDirAux, hsc] at h
        cases hrec : createDirAux force rest ccs with
        | ok ccs2 =>
          rw [hrec] at h
          dsimp only at h
          cases h
        | error e2 =>
          rw [hrec] at h
          dsimp only at h
          cases h
          exact ih ccs _ hrec

/-- On an invariant-satisfying child list, `CreateDir` fails (with
`CANT_CREATE_DIR`) exactly under the spec condition `createDirFails`: a
segment absent but not eligible for creation, or an existing segment that is
not a directory. -/
theorem createDirAux_err_iff (force : Bool) :
    ∀ (segs : List Name) (cs : List Node), ChildsInv cs →
      (createDirAux force segs cs = .error .CANT_CREATE_DIR ↔
        createDirFails force segs cs = true) := by
  intro segs
  induction segs with
  | nil =>
    intro cs hinv
    simp [createDirAux, createDirFails]
  | cons seg rest ih =>
    intro cs hinv
    have hfind := searchChild_eq_find cs seg hinv.1
    cases hsc : searchChild cs seg with
    | none =>
      have hf : cs.find? (fun c => c.name == seg) = none := by
        rw [← hfind, hsc]
        rfl
      simp only [createDirAux, createDirFails, hsc, hf]
      by_cases helig : (force || rest.isEmpty) = true
      · rw [if_pos helig, if_pos helig]
        have hiff := ih [] ⟨List.Pairwise.nil, by simp⟩
        cases hrec : createDirAux force rest [] with
        | ok newCs =>
          rw [hrec] at hiff
          dsimp only
          constructor
          · intro hx
            cases hx
          · intro hx
            exact absurd (hiff.mpr hx) (by intro hc; cases hc)
        | error e2 =>
          have he2 := createDirAux_err_only force rest [] e2 hrec
          subst he2
          rw [hrec] at hiff
          dsimp only
          constructor
          · intro hx2
            exact hiff.mp rfl
          · intro hx2
            rfl
      · rw [if_neg helig, if_neg helig]
        simp
    | some pc =>
      obtain ⟨pos, c⟩ := pc
      have hf : cs.find? (fun c2 => c2.name == seg) = some c := by
        rw [← hfind, hsc]
        rfl
      cases c with
      | file f2 =>
        simp [createDirAux, createDirFails, hsc, hf]
      | dir nm ccs =>
        obtain ⟨hplt, hpget, hpname⟩ := searchChild_some_spec cs seg pos (Node.dir nm ccs) hsc
        have hccsInv : ChildsInv ccs :=
          nodeInv_dir_childs nm ccs (hinv.2 _ (hpget ▸ List.get_mem cs pos hplt))
        have hiff := ih ccs hccsInv
        simp only [createDirAux, createDirFails, hsc, hf]
        cases hrec : createDirAux force rest ccs with
        | ok ccs2 =>
          rw [hrec] at hiff
          dsimp only
          constructor
          · intro hx
            cases hx
          · intro hx
            exact absurd (hiff.mpr hx) (by intro hc; cases hc)
        | error e2 =>
          have he2 := createDirAux_err_only force rest ccs e2 hrec
          subst he2
          rw [hrec] at hiff
          dsimp only
          constructor
          · intro hx2
            exact hiff.mp rfl
          · intro hx2
            rfl




/-- C9 amended: on a filesystem satisfying the sorted-children invariant and
for a path with at least one segment, a successful `CreateDir` makes the
path exist and resolve to a directory, and `CreateDir` fails — always with
`CANT_CREATE_DIR` — exactly when the walk meets a segment that is absent but
not eligible for creation (`force` false and not the last segment) or an
existing segment that is not a directory.  (The claim as frozen also covers
degenerate no-segment paths, where it fails: see the counterexample.) -/
theorem C9_createDir_correct (cs : List Node) (p : List Char) (force : Bool)
    (hinv : ChildsInv cs) (hne : SplitPath p ≠ []) :
    (∀ cs2, CreateDir cs p force = .ok cs2 →
        NodeExists cs2 p = true ∧ ∃ nm dcs, GetNodeInfo cs2 p = some (Node.dir nm dcs)) ∧
    (CreateDir cs p force = .error .CANT_CREATE_DIR ↔
        createDirFails force (SplitPath p) cs = true) := by
  constructor
  · intro cs2 h
    obtain ⟨hinv2, hlook⟩ := createDirAux_ok_lookup force (SplitPath p) cs cs2 hinv h
    obtain ⟨nm, dcs, hg⟩ := hlook hne
    have hgi : GetNodeInfo cs2 p = some (Node.dir nm dcs) := by
      rw [getNodeInfo_eq_aux cs2 p hne, hg]
    exact ⟨by simp [NodeExists, hgi], nm, dcs, hgi⟩
  · exact createDirAux_err_iff force (SplitPath p) cs hinv

/-- C9 witness: the amended statement applied to `CreateDir "/a"` on the
empty filesystem. -/
theorem C9_createDir_correct_witness :
    NodeExists treeA pathA = true ∧ GetNodeInfo treeA pathA = some (Node.dir ['a'] []) := by
  have h := (C9_createDir_correct [] pathA false ⟨List.Pairwise.nil, by simp⟩
    (by decide)).1 treeA rfl
  exact ⟨h.1, rfl⟩


/-- C9 counterexample: the claim quantifies over every path for which
`CreateDir` succeeds.  On the empty path, `CreateDir` splits into no
segments and succeeds as a no-op, yet `NodeExists` is false, because
`GetNodeInfo` only maps the segment-free case to the root for the literal
path `"/"`. -/
theorem C9_counterexample :
    (CreateDir [] [] false = .ok []) ∧ (NodeExists [] [] = false) :=
  ⟨rfl, rfl⟩

/-- C10 (confirmed): when the path does not resolve, the mode contains
`WRITE`, and the parent lookup (`GetNodeInfo` of `ExtractPath`) yields
nothing, `Open` returns the null stream handle, raises no error, creates no
file and leaves the tree unchanged. -/
theorem C10_null_stream (cs : List Node) (p : List Char) (mode : Nat)
    (h1 : GetNodeInfo cs p = none) (h2 : hasMode mode WRITE = true)
    (h3 : GetNodeInfo cs (ExtractPath p) = none) :
    Open cs p mode = .ok (none, cs) := by
  unfold Open
  rw [h1, h3]
  simp [h2]

/-- C10 witness: `Open "/a"` in `WRITE` mode on the empty filesystem — the
parent string is empty and resolves to nothing — returns the null stream and
the unchanged (empty) tree. -/
theorem C10_null_stream_witness :
    Open [] pathA WRITE = .ok (none, []) :=
  C10_null_stream [] pathA WRITE rfl rfl rfl

end CVFS
